import Mathlib

/-!
Shallow embedding of `ms_nexus_tools/lib/chunking.py`: the 4D bounds data
model, the memory-budget solver (`MemoryInfo.calculate`), the square-grid
sub-solver (`chunk_image_dimensions`), the two chunk-layout strategies and
the chunk enumerator (`_chunk`), together with theorems about partitioning,
memory bounds and error behaviour.

Python `float` arithmetic is modelled exactly over `ℚ`; Python `int` over
`ℤ`/`ℕ`; `math.floor`/`math.ceil` over `Int.floor`/`Int.ceil`; a failing
`assert` is modelled by an `Option`-valued function returning `none`.
-/

namespace Chunking

/-- One axis of `ImageBounds.shape`; mirrors the Python dataclass field list
`(layer_count, layer_width, layer_height, spectrum_length)`. -/
structure ImageBounds where
  layer_count : ℕ
  layer_width : ℕ
  layer_height : ℕ
  spectrum_length : ℕ
deriving DecidableEq, Repr

/-- Total number of elements of the 4D volume. -/
def ImageBounds.element_count (b : ImageBounds) : ℕ :=
  b.layer_count * b.layer_width * b.layer_height * b.spectrum_length

/-- A Python `slice(start, stop)` with integer endpoints. -/
structure Slice where
  start : ℕ
  stop : ℕ
deriving DecidableEq, Repr

/-- The `ChunkBounds` dataclass: four half-open ranges. -/
structure ChunkBounds where
  layer : Slice
  width : Slice
  height : Slice
  spectra : Slice
deriving DecidableEq, Repr

/-- `ChunkBounds.approximate_size_gb`: product of the four extents times 4
bytes, divided by 1024 three times (exact rational arithmetic in place of
Python floats). -/
def ChunkBounds.approximate_size_gb (c : ChunkBounds) : ℚ :=
  ((c.layer.stop - c.layer.start : ℤ) : ℚ)
    * ((c.width.stop - c.width.start : ℤ) : ℚ)
    * ((c.height.stop - c.height.start : ℤ) : ℚ)
    * ((c.spectra.stop - c.spectra.start : ℤ) : ℚ)
    * 4 / 1024 / 1024 / 1024

/-- Number of index tuples covered by a chunk (product of the extents). -/
def ChunkBounds.element_count (c : ChunkBounds) : ℕ :=
  (c.layer.stop - c.layer.start) * (c.width.stop - c.width.start)
    * (c.height.stop - c.height.start) * (c.spectra.stop - c.spectra.start)

/-- The `MemoryInfo` dataclass. -/
structure MemoryInfo where
  total_gb : ℚ
  max_chunk_gb : ℚ
  min_chunk_count : ℤ
deriving DecidableEq, Repr

/-- The `ChunkBounds` spanning the whole volume, as built at the top of
`MemoryInfo.calculate` from `slice(0, bound)` on each axis. -/
def full_chunk (b : ImageBounds) : ChunkBounds :=
  ChunkBounds.mk ⟨0, b.layer_count⟩ ⟨0, b.layer_width⟩
    ⟨0, b.layer_height⟩ ⟨0, b.spectrum_length⟩

/-- `MemoryInfo.calculate`: the memory-budget solver.  `none` models a
failing `assert` (`processors >= 1`, `gb_max > 0.0`). -/
def MemoryInfo.calculate (chunk_count_min : ℤ) (gb_max : Option ℚ)
    (processors : ℤ) (bounds : ImageBounds) : Option MemoryInfo :=
  let total_gb : ℚ := (full_chunk bounds).approximate_size_gb
  if processors < 1 then none
  else
    let ccm : ℤ := if chunk_count_min ≤ 0 then 1 else chunk_count_min
    let chunk_gb : ℚ := total_gb / (ccm : ℚ)
    match gb_max with
    | some g =>
      if g ≤ 0 then none
      else
        let chunk_count : ℤ :=
          if g < chunk_gb * (processors : ℚ) then
            Int.ceil (total_gb / (g / (processors : ℚ)))
          else ccm
        some ⟨total_gb, total_gb / (chunk_count : ℚ), chunk_count⟩
    | none => some ⟨total_gb, total_gb / (ccm : ℚ), ccm⟩

/-- Number of iterations of Python `range(0, n, s)` for `s ≥ 1`:
`⌈n / s⌉`. -/
def ceil_div (n s : ℕ) : ℕ := (n + s - 1) / s

/-- The `i`-th slab of `[0, n)` cut into pieces of size `s`:
`slice(i*s, min((i+1)*s, n))`, exactly as `_chunk` computes start and
clamped end of each axis slab. -/
def slab (n s i : ℕ) : Slice := ⟨i * s, min ((i + 1) * s) n⟩

/-- `_chunk`: enumerate the Cartesian product of the four axes' slabs,
layer outermost, then width, then height, then spectra innermost. -/
def _chunk (bounds : ImageBounds)
    (layers_per_chunk width_per_chunk height_per_chunk spectra_per_chunk : ℕ) :
    List ChunkBounds :=
  (List.range (ceil_div bounds.layer_count layers_per_chunk)).flatMap fun ii =>
    (List.range (ceil_div bounds.layer_width width_per_chunk)).flatMap fun jj =>
      (List.range (ceil_div bounds.layer_height height_per_chunk)).flatMap fun kk =>
        (List.range (ceil_div bounds.spectrum_length spectra_per_chunk)).map fun ll =>
          ChunkBounds.mk (slab bounds.layer_count layers_per_chunk ii)
            (slab bounds.layer_width width_per_chunk jj)
            (slab bounds.layer_height height_per_chunk kk)
            (slab bounds.spectrum_length spectra_per_chunk ll)

/-- `math.ceil(math.sqrt n)` for a natural number `n`, with the square root
taken exactly. -/
def ceil_sqrt (n : ℕ) : ℕ :=
  if Nat.sqrt n * Nat.sqrt n = n then Nat.sqrt n else Nat.sqrt n + 1

/-- `chunk_image_dimensions`: the square-grid sub-solver (asserts erased;
see `chunk_image_dimensions_checked` for the assert-faithful variant). -/
def chunk_image_dimensions (width height chunks_per_image : ℕ) : ℕ × ℕ :=
  if width * height < chunks_per_image then (1, 1)
  else
    let chunks_per_image_dimension := ceil_sqrt chunks_per_image
    if width < chunks_per_image_dimension then
      (1, max 1 (Int.toNat (Int.floor
        ((height : ℚ) / ((chunks_per_image : ℚ) / (width : ℚ))))))
    else if height < chunks_per_image_dimension then
      (max 1 (Int.toNat (Int.floor
        ((width : ℚ) / ((chunks_per_image : ℚ) / (height : ℚ))))), 1)
    else
      (width / chunks_per_image_dimension, height / chunks_per_image_dimension)

/-- `chunk_image_dimensions` with the source's `assert` statements kept:
`none` models an assertion failure. -/
def chunk_image_dimensions_checked (width height chunks_per_image : ℕ) :
    Option (ℕ × ℕ) :=
  if width * height < chunks_per_image then some (1, 1)
  else
    let d := ceil_sqrt chunks_per_image
    if width < d then
      if width < height ∧ d ≤ height then
        some (1, max 1 (Int.toNat (Int.floor
          ((height : ℚ) / ((chunks_per_image : ℚ) / (width : ℚ))))))
      else none
    else if height < d then
      if height < width ∧ d ≤ width then
        some (max 1 (Int.toNat (Int.floor
          ((width : ℚ) / ((chunks_per_image : ℚ) / (height : ℚ))))), 1)
      else none
    else
      if d ≤ width ∧ d ≤ height then some (width / d, height / d) else none

/-- `_chunk_images_then_spectra`: spatial grid first, remaining budget on
the spectral axis. -/
def _chunk_images_then_spectra (bounds : ImageBounds)
    (chunks_per_layer layers_per_chunk : ℕ) : List ChunkBounds :=
  let wh := chunk_image_dimensions bounds.layer_width bounds.layer_height
    chunks_per_layer
  let chunks_per_image : ℚ :=
    ((bounds.layer_width : ℚ) / (wh.1 : ℚ)) * ((bounds.layer_height : ℚ) / (wh.2 : ℚ))
  let chunks_per_spectrum : ℤ :=
    Int.ceil ((chunks_per_layer : ℚ) / chunks_per_image)
  let spectra_per_chunk : ℕ :=
    max 1 (Int.toNat (Int.floor
      ((bounds.spectrum_length : ℚ) / (chunks_per_spectrum : ℚ))))
  _chunk bounds layers_per_chunk wh.1 wh.2 spectra_per_chunk

/-- `_chunk_spectra_then_images`: spectral axis first, residual budget to
the spatial grid. -/
def _chunk_spectra_then_images (bounds : ImageBounds)
    (chunks_per_layer layers_per_chunk : ℕ) : List ChunkBounds :=
  let spectra_per_chunk : ℕ :=
    max 1 (Int.toNat (Int.floor
      ((bounds.spectrum_length : ℚ) / (chunks_per_layer : ℚ))))
  let chunks_per_spectrum : ℚ :=
    (bounds.spectrum_length : ℚ) / (spectra_per_chunk : ℚ)
  let chunks_per_image : ℕ :=
    Int.toNat (Int.ceil ((chunks_per_layer : ℚ) / chunks_per_spectrum))
  let wh := chunk_image_dimensions bounds.layer_width bounds.layer_height
    chunks_per_image
  _chunk bounds layers_per_chunk wh.1 wh.2 spectra_per_chunk

/-- `calculate_chunks`: solve the memory budget, derive the layer
granularity, and produce the two layouts.  The pair `p` gathers
`(layers_per_chunk, chunks_per_layer)`. -/
def calculate_chunks (chunk_count_min : ℤ) (gb_max : Option ℚ)
    (processors : ℤ) (bounds : ImageBounds) :
    Option (List ChunkBounds × List ChunkBounds × MemoryInfo) :=
  (MemoryInfo.calculate chunk_count_min gb_max processors bounds).bind
    fun memory_info =>
      let p : ℕ × ℕ :=
        if memory_info.min_chunk_count < (bounds.layer_count : ℤ) then
          (max 1 (Int.toNat (Int.floor
            ((bounds.layer_count : ℚ) / (memory_info.min_chunk_count : ℚ)))), 1)
        else
          (1, Int.toNat (Int.ceil
            ((memory_info.min_chunk_count : ℚ) / (bounds.layer_count : ℚ))))
      some (_chunk_images_then_spectra bounds p.2 p.1,
        _chunk_spectra_then_images bounds p.2 p.1, memory_info)

/-- A 4D index tuple lies inside a chunk's four half-open ranges. -/
def ChunkBounds.memPoint (c : ChunkBounds) (p : ℕ × ℕ × ℕ × ℕ) : Prop :=
  c.layer.start ≤ p.1 ∧ p.1 < c.layer.stop ∧
  c.width.start ≤ p.2.1 ∧ p.2.1 < c.width.stop ∧
  c.height.start ≤ p.2.2.1 ∧ p.2.2.1 < c.height.stop ∧
  c.spectra.start ≤ p.2.2.2 ∧ p.2.2.2 < c.spectra.stop

/-- A 4D index tuple lies inside the volume
`[0,layers) × [0,width) × [0,height) × [0,spectrum_length)`. -/
def ImageBounds.memPoint (b : ImageBounds) (p : ℕ × ℕ × ℕ × ℕ) : Prop :=
  p.1 < b.layer_count ∧ p.2.1 < b.layer_width ∧
  p.2.2.1 < b.layer_height ∧ p.2.2.2 < b.spectrum_length

/-- The chunk list is an exact partition of the volume's 4D index set:
pairwise disjoint index sets, union equal to the volume, pairwise distinct
chunks, and element counts summing to the volume's element count. -/
def IsExactPartition (l : List ChunkBounds) (b : ImageBounds) : Prop :=
  l.Pairwise (fun c1 c2 => ∀ p, ¬(c1.memPoint p ∧ c2.memPoint p)) ∧
  (∀ p, b.memPoint p ↔ ∃ c ∈ l, c.memPoint p) ∧
  l.Nodup ∧
  (l.map ChunkBounds.element_count).sum = b.element_count

/-- Strict lexicographic order on chunks by
`(layer.start, width.start, height.start, spectra.start)`. -/
def chunkLexLt (c1 c2 : ChunkBounds) : Prop :=
  c1.layer.start < c2.layer.start ∨
  (c1.layer.start = c2.layer.start ∧ (c1.width.start < c2.width.start ∨
    (c1.width.start = c2.width.start ∧ (c1.height.start < c2.height.start ∨
      (c1.height.start = c2.height.start ∧
        c1.spectra.start < c2.spectra.start)))))

/-- The degenerate-chunk guard of `process_chunk_on_disk`: the chunk is
skipped when its layer range or its spectra range is empty. -/
def ChunkBounds.skipped_on_disk (c : ChunkBounds) : Bool :=
  (c.layer.stop - c.layer.start == 0) || (c.spectra.stop - c.spectra.start == 0)

/-! ### One-dimensional slab lemmas -/

lemma lt_ceil_div_iff {n s : ℕ} (hs : 1 ≤ s) {i : ℕ} :
    i < ceil_div n s ↔ i * s < n := by
  unfold ceil_div
  rw [show (i < (n + s - 1) / s) ↔ (i + 1 ≤ (n + s - 1) / s) from Iff.rfl,
    Nat.le_div_iff_mul_le hs]
  have h : (i + 1) * s = i * s + s := by ring
  omega

lemma ceil_div_mul_ge {n s : ℕ} (hs : 1 ≤ s) : n ≤ ceil_div n s * s := by
  by_contra h
  push_neg at h
  have h2 : ceil_div n s < ceil_div n s := (lt_ceil_div_iff hs).2 h
  omega

lemma ceil_div_pos {n s : ℕ} (hn : 1 ≤ n) (hs : 1 ≤ s) : 1 ≤ ceil_div n s :=
  Nat.pos_of_ne_zero fun h => by
    have := ceil_div_mul_ge (n := n) hs
    rw [h] at this
    omega

lemma slab_stop_le (n s i : ℕ) : (slab n s i).stop ≤ n := min_le_right _ _

lemma slab_extent_pos {n s : ℕ} (hs : 1 ≤ s) {i : ℕ} (hi : i < ceil_div n s) :
    (slab n s i).start < (slab n s i).stop := by
  have h1 : i * s < n := (lt_ceil_div_iff hs).1 hi
  have h2 : i * s < (i + 1) * s := by
    have h : (i + 1) * s = i * s + s := by ring
    omega
  exact lt_min h2 h1

lemma slab_cover {n s : ℕ} (hs : 1 ≤ s) {x : ℕ} (hx : x < n) :
    x / s < ceil_div n s ∧ (slab n s (x / s)).start ≤ x ∧
      x < (slab n s (x / s)).stop := by
  have h1 : x / s * s ≤ x := Nat.div_mul_le_self x s
  have h2 : x < (x / s + 1) * s := by
    have hm : x % s < s := Nat.mod_lt _ hs
    have hd : s * (x / s) + x % s = x := Nat.div_add_mod x s
    have h : (x / s + 1) * s = s * (x / s) + s := by ring
    omega
  exact ⟨(lt_ceil_div_iff hs).2 (lt_of_le_of_lt h1 hx), h1, lt_min h2 hx⟩

lemma slab_index_eq {n s : ℕ} (_hs : 1 ≤ s) {i x : ℕ}
    (h1 : (slab n s i).start ≤ x) (h2 : x < (slab n s i).stop) : i = x / s := by
  have h2' : x < (i + 1) * s := lt_of_lt_of_le h2 (min_le_left _ _)
  exact (Nat.div_eq_of_lt_le h1 h2').symm

lemma slab_disjoint {n s : ℕ} (hs : 1 ≤ s) {i j : ℕ} (hij : i ≠ j) (x : ℕ) :
    ¬(((slab n s i).start ≤ x ∧ x < (slab n s i).stop) ∧
      ((slab n s j).start ≤ x ∧ x < (slab n s j).stop)) := fun ⟨h1, h2⟩ =>
  hij ((slab_index_eq hs h1.1 h1.2).trans (slab_index_eq hs h2.1 h2.2).symm)

lemma slab_start_lt {n s : ℕ} (hs : 1 ≤ s) {i j : ℕ} (hij : i < j) :
    (slab n s i).start < (slab n s j).start :=
  Nat.mul_lt_mul_of_lt_of_le hij le_rfl hs

lemma slab_inj {n s : ℕ} (hs : 1 ≤ s) {i j : ℕ}
    (h : slab n s i = slab n s j) : i = j := by
  rcases Nat.lt_trichotomy i j with hlt | heq | hgt
  · exact absurd (congrArg Slice.start h) (Nat.ne_of_lt (slab_start_lt hs hlt))
  · exact heq
  · exact absurd (congrArg Slice.start h).symm
      (Nat.ne_of_lt (slab_start_lt hs hgt))

lemma slab_sum_aux (n s : ℕ) :
    ∀ k, ((List.range k).map
      (fun i => (slab n s i).stop - (slab n s i).start)).sum = min (k * s) n := by
  intro k
  induction k with
  | zero => simp
  | succ k ih =>
    rw [List.range_succ, List.map_append, List.sum_append, ih]
    have hle : k * s ≤ (k + 1) * s := Nat.mul_le_mul_right s (Nat.le_succ k)
    simp only [List.map_cons, List.map_nil, List.sum_cons, List.sum_nil, slab]
    omega

lemma slab_sum {n s : ℕ} (hs : 1 ≤ s) :
    ((List.range (ceil_div n s)).map
      (fun i => (slab n s i).stop - (slab n s i).start)).sum = n := by
  rw [slab_sum_aux]
  exact min_eq_right (ceil_div_mul_ge hs)

/-! ### Four-dimensional enumeration lemmas -/

lemma mem_chunk_iff {b : ImageBounds} {sL sW sH sS : ℕ} {c : ChunkBounds} :
    c ∈ _chunk b sL sW sH sS ↔
      ∃ ii < ceil_div b.layer_count sL, ∃ jj < ceil_div b.layer_width sW,
        ∃ kk < ceil_div b.layer_height sH, ∃ ll < ceil_div b.spectrum_length sS,
          c = ChunkBounds.mk (slab b.layer_count sL ii) (slab b.layer_width sW jj)
            (slab b.layer_height sH kk) (slab b.spectrum_length sS ll) := by
  simp only [_chunk, List.mem_flatMap, List.mem_map, List.mem_range]
  constructor
  · rintro ⟨ii, hii, jj, hjj, kk, hkk, ll, hll, rfl⟩
    exact ⟨ii, hii, jj, hjj, kk, hkk, ll, hll, rfl⟩
  · rintro ⟨ii, hii, jj, hjj, kk, hkk, ll, hll, rfl⟩
    exact ⟨ii, hii, jj, hjj, kk, hkk, ll, hll, rfl⟩

lemma pairwise_flatMap' {α β : Type} {R : β → β → Prop} {l : List α}
    {f : α → List β} (h1 : ∀ a ∈ l, (f a).Pairwise R)
    (h2 : l.Pairwise fun a b => ∀ x ∈ f a, ∀ y ∈ f b, R x y) :
    (l.flatMap f).Pairwise R := by
  induction l with
  | nil => simp
  | cons a l ih =>
    rw [List.flatMap_cons, List.pairwise_append]
    rcases List.pairwise_cons.1 h2 with ⟨ha, h2'⟩
    refine ⟨h1 a (by simp), ih (fun x hx => h1 x (by simp [hx])) h2', ?_⟩
    intro x hx y hy
    rcases List.mem_flatMap.1 hy with ⟨b, hb, hyb⟩
    exact ha b hb x hx y hyb

lemma chunk_pairwise_lex (b : ImageBounds) {sL sW sH sS : ℕ}
    (hL : 1 ≤ sL) (hW : 1 ≤ sW) (hH : 1 ≤ sH) (hS : 1 ≤ sS) :
    (_chunk b sL sW sH sS).Pairwise chunkLexLt := by
  unfold _chunk
  refine pairwise_flatMap' (fun ii _ => ?_) ?_
  · refine pairwise_flatMap' (fun jj _ => ?_) ?_
    · refine pairwise_flatMap' (fun kk _ => ?_) ?_
      · rw [List.pairwise_map]
        refine (List.pairwise_lt_range _).imp ?_
        intro l1 l2 h
        exact Or.inr ⟨rfl, Or.inr ⟨rfl, Or.inr ⟨rfl, slab_start_lt hS h⟩⟩⟩
      · refine (List.pairwise_lt_range _).imp ?_
        intro k1 k2 h x hx y hy
        simp only [List.mem_map, List.mem_range] at hx hy
        rcases hx with ⟨l1, _, rfl⟩
        rcases hy with ⟨l2, _, rfl⟩
        exact Or.inr ⟨rfl, Or.inr ⟨rfl, Or.inl (slab_start_lt hH h)⟩⟩
    · refine (List.pairwise_lt_range _).imp ?_
      intro j1 j2 h x hx y hy
      simp only [List.mem_flatMap, List.mem_map, List.mem_range] at hx hy
      rcases hx with ⟨k1, _, l1, _, rfl⟩
      rcases hy with ⟨k2, _, l2, _, rfl⟩
      exact Or.inr ⟨rfl, Or.inl (slab_start_lt hW h)⟩
  · refine (List.pairwise_lt_range _).imp ?_
    intro i1 i2 h x hx y hy
    simp only [List.mem_flatMap, List.mem_map, List.mem_range] at hx hy
    rcases hx with ⟨j1, _, k1, _, l1, _, rfl⟩
    rcases hy with ⟨j2, _, k2, _, l2, _, rfl⟩
    exact Or.inl (slab_start_lt hL h)

lemma chunkLexLt_ne {c1 c2 : ChunkBounds} (h : chunkLexLt c1 c2) : c1 ≠ c2 := by
  rintro rfl
  rcases h with h | ⟨_, h | ⟨_, h | ⟨_, h⟩⟩⟩ <;> omega

lemma chunk_nodup (b : ImageBounds) {sL sW sH sS : ℕ}
    (hL : 1 ≤ sL) (hW : 1 ≤ sW) (hH : 1 ≤ sH) (hS : 1 ≤ sS) :
    (_chunk b sL sW sH sS).Nodup :=
  (chunk_pairwise_lex b hL hW hH hS).imp chunkLexLt_ne

lemma chunk_mem_disjoint {b : ImageBounds} {sL sW sH sS : ℕ}
    (hL : 1 ≤ sL) (hW : 1 ≤ sW) (hH : 1 ≤ sH) (hS : 1 ≤ sS)
    {c1 c2 : ChunkBounds} (h1 : c1 ∈ _chunk b sL sW sH sS)
    (h2 : c2 ∈ _chunk b sL sW sH sS) (hne : c1 ≠ c2) (p : ℕ × ℕ × ℕ × ℕ) :
    ¬(c1.memPoint p ∧ c2.memPoint p) := by
  rcases mem_chunk_iff.1 h1 with ⟨i1, _, j1, _, k1, _, l1, _, rfl⟩
  rcases mem_chunk_iff.1 h2 with ⟨i2, _, j2, _, k2, _, l2, _, rfl⟩
  rintro ⟨m1, m2⟩
  obtain ⟨a1, a2, b1, b2, d1, d2, e1, e2⟩ := m1
  obtain ⟨a1', a2', b1', b2', d1', d2', e1', e2'⟩ := m2
  by_cases hi : i1 = i2
  · by_cases hj : j1 = j2
    · by_cases hk : k1 = k2
      · by_cases hl : l1 = l2
        · exact hne (by rw [hi, hj, hk, hl])
        · exact slab_disjoint hS hl p.2.2.2 ⟨⟨e1, e2⟩, ⟨e1', e2'⟩⟩
      · exact slab_disjoint hH hk p.2.2.1 ⟨⟨d1, d2⟩, ⟨d1', d2'⟩⟩
    · exact slab_disjoint hW hj p.2.1 ⟨⟨b1, b2⟩, ⟨b1', b2'⟩⟩
  · exact slab_disjoint hL hi p.1 ⟨⟨a1, a2⟩, ⟨a1', a2'⟩⟩

lemma chunk_pairwise_disjoint (b : ImageBounds) {sL sW sH sS : ℕ}
    (hL : 1 ≤ sL) (hW : 1 ≤ sW) (hH : 1 ≤ sH) (hS : 1 ≤ sS) :
    (_chunk b sL sW sH sS).Pairwise
      (fun c1 c2 => ∀ p, ¬(c1.memPoint p ∧ c2.memPoint p)) :=
  List.Pairwise.imp_of_mem
    (fun ha hb hne => chunk_mem_disjoint hL hW hH hS ha hb hne)
    (chunk_nodup b hL hW hH hS)

lemma chunk_cover (b : ImageBounds) {sL sW sH sS : ℕ}
    (hL : 1 ≤ sL) (hW : 1 ≤ sW) (hH : 1 ≤ sH) (hS : 1 ≤ sS)
    (p : ℕ × ℕ × ℕ × ℕ) :
    b.memPoint p ↔ ∃ c ∈ _chunk b sL sW sH sS, c.memPoint p := by
  constructor
  · rintro ⟨hx, hy, hz, hw⟩
    obtain ⟨i1, i2, i3⟩ := slab_cover hL hx
    obtain ⟨j1, j2, j3⟩ := slab_cover hW hy
    obtain ⟨k1, k2, k3⟩ := slab_cover hH hz
    obtain ⟨l1, l2, l3⟩ := slab_cover hS hw
    refine ⟨_, mem_chunk_iff.2 ⟨_, i1, _, j1, _, k1, _, l1, rfl⟩, ?_⟩
    exact ⟨i2, i3, j2, j3, k2, k3, l2, l3⟩
  · rintro ⟨c, hc, hm⟩
    rcases mem_chunk_iff.1 hc with ⟨i, _, j, _, k, _, l, _, rfl⟩
    obtain ⟨_, a2, _, b2, _, d2, _, e2⟩ := hm
    exact ⟨lt_of_lt_of_le a2 (slab_stop_le _ _ _),
      lt_of_lt_of_le b2 (slab_stop_le _ _ _),
      lt_of_lt_of_le d2 (slab_stop_le _ _ _),
      lt_of_lt_of_le e2 (slab_stop_le _ _ _)⟩

lemma sum_map_flatMap {α β : Type} (l : List α) (f : α → List β) (g : β → ℕ) :
    ((l.flatMap f).map g).sum = (l.map (fun a => ((f a).map g).sum)).sum := by
  induction l with
  | nil => simp
  | cons a l ih => simp [List.flatMap_cons, ih]

lemma chunk_sum (b : ImageBounds) {sL sW sH sS : ℕ}
    (hL : 1 ≤ sL) (hW : 1 ≤ sW) (hH : 1 ≤ sH) (hS : 1 ≤ sS) :
    ((_chunk b sL sW sH sS).map ChunkBounds.element_count).sum =
      b.element_count := by
  unfold _chunk
  rw [sum_map_flatMap]
  have h4 : ∀ A B C : Slice,
      (((List.range (ceil_div b.spectrum_length sS)).map fun ll =>
        ChunkBounds.mk A B C (slab b.spectrum_length sS ll)).map
          ChunkBounds.element_count).sum =
      (A.stop - A.start) * (B.stop - B.start) * (C.stop - C.start)
        * b.spectrum_length := by
    intro A B C
    rw [List.map_map]
    have : (ChunkBounds.element_count ∘ fun ll =>
        ChunkBounds.mk A B C (slab b.spectrum_length sS ll)) =
        fun ll => (A.stop - A.start) * (B.stop - B.start) * (C.stop - C.start)
          * ((slab b.spectrum_length sS ll).stop
            - (slab b.spectrum_length sS ll).start) := rfl
    rw [this]
    simp only [mul_assoc]
    rw [List.sum_map_mul_left, List.sum_map_mul_left, List.sum_map_mul_left,
      slab_sum hS]
  have h3 : ∀ A B : Slice,
      (((List.range (ceil_div b.layer_height sH)).flatMap fun kk =>
        (List.range (ceil_div b.spectrum_length sS)).map fun ll =>
          ChunkBounds.mk A B (slab b.layer_height sH kk)
            (slab b.spectrum_length sS ll)).map ChunkBounds.element_count).sum =
      (A.stop - A.start) * (B.stop - B.start) * b.layer_height
        * b.spectrum_length := by
    intro A B
    rw [sum_map_flatMap]
    have : ((List.range (ceil_div b.layer_height sH)).map fun kk =>
        (((List.range (ceil_div b.spectrum_length sS)).map fun ll =>
          ChunkBounds.mk A B (slab b.layer_height sH kk)
            (slab b.spectrum_length sS ll)).map ChunkBounds.element_count).sum) =
        (List.range (ceil_div b.layer_height sH)).map fun kk =>
          (A.stop - A.start) * (B.stop - B.start)
            * (((slab b.layer_height sH kk).stop
              - (slab b.layer_height sH kk).start) * b.spectrum_length) := by
      refine List.map_congr_left fun kk _ => ?_
      rw [h4]
      ring
    rw [this, List.sum_map_mul_left, List.sum_map_mul_right, slab_sum hH]
    ring
  have h2 : ∀ A : Slice,
      (((List.range (ceil_div b.layer_width sW)).flatMap fun jj =>
        (List.range (ceil_div b.layer_height sH)).flatMap fun kk =>
          (List.range (ceil_div b.spectrum_length sS)).map fun ll =>
            ChunkBounds.mk A (slab b.layer_width sW jj)
              (slab b.layer_height sH kk)
              (slab b.spectrum_length sS ll)).map ChunkBounds.element_count).sum =
      (A.stop - A.start) * b.layer_width * b.layer_height
        * b.spectrum_length := by
    intro A
    rw [sum_map_flatMap]
    have : ((List.range (ceil_div b.layer_width sW)).map fun jj =>
        (((List.range (ceil_div b.layer_height sH)).flatMap fun kk =>
          (List.range (ceil_div b.spectrum_length sS)).map fun ll =>
            ChunkBounds.mk A (slab b.layer_width sW jj)
              (slab b.layer_height sH kk)
              (slab b.spectrum_length sS ll)).map ChunkBounds.element_count).sum) =
        (List.range (ceil_div b.layer_width sW)).map fun jj =>
          (A.stop - A.start) * (((slab b.layer_width sW jj).stop
            - (slab b.layer_width sW jj).start)
            * (b.layer_height * b.spectrum_length)) := by
      refine List.map_congr_left fun jj _ => ?_
      rw [h3]
      ring
    rw [this, List.sum_map_mul_left, List.sum_map_mul_right, slab_sum hW]
    ring
  have h1 : ((List.range (ceil_div b.layer_count sL)).map fun ii =>
      (((List.range (ceil_div b.layer_width sW)).flatMap fun jj =>
        (List.range (ceil_div b.layer_height sH)).flatMap fun kk =>
          (List.range (ceil_div b.spectrum_length sS)).map fun ll =>
            ChunkBounds.mk (slab b.layer_count sL ii) (slab b.layer_width sW jj)
              (slab b.layer_height sH kk)
              (slab b.spectrum_length sS ll)).map ChunkBounds.element_count).sum) =
      (List.range (ceil_div b.layer_count sL)).map fun ii =>
        ((slab b.layer_count sL ii).stop - (slab b.layer_count sL ii).start)
          * (b.layer_width * b.layer_height * b.spectrum_length) := by
    refine List.map_congr_left fun ii _ => ?_
    rw [h2]
    ring
  rw [h1, List.sum_map_mul_right, slab_sum hL]
  unfold ImageBounds.element_count
  ring

lemma chunk_partition (b : ImageBounds) {sL sW sH sS : ℕ}
    (hL : 1 ≤ sL) (hW : 1 ≤ sW) (hH : 1 ≤ sH) (hS : 1 ≤ sS) :
    IsExactPartition (_chunk b sL sW sH sS) b :=
  ⟨chunk_pairwise_disjoint b hL hW hH hS, chunk_cover b hL hW hH hS,
    chunk_nodup b hL hW hH hS, chunk_sum b hL hW hH hS⟩

/-! ### Square-grid sub-solver lemmas -/

lemma ceil_sqrt_pos {n : ℕ} (hn : 1 ≤ n) : 1 ≤ ceil_sqrt n := by
  unfold ceil_sqrt
  split
  · rename_i h
    rcases Nat.eq_zero_or_pos (Nat.sqrt n) with h0 | h1
    · rw [h0] at h
      omega
    · exact h1
  · omega

lemma le_ceil_sqrt_sq (n : ℕ) : n ≤ ceil_sqrt n * ceil_sqrt n := by
  unfold ceil_sqrt
  split
  · omega
  · exact le_of_lt (Nat.lt_succ_sqrt n)

lemma pred_ceil_sqrt_sq_lt {n : ℕ} (hn : 1 ≤ n) :
    (ceil_sqrt n - 1) * (ceil_sqrt n - 1) < n := by
  unfold ceil_sqrt
  split
  · rename_i h
    have h1 : 1 ≤ Nat.sqrt n := by
      rcases Nat.eq_zero_or_pos (Nat.sqrt n) with h0 | h1
      · rw [h0] at h
        omega
      · exact h1
    calc (Nat.sqrt n - 1) * (Nat.sqrt n - 1) < Nat.sqrt n * Nat.sqrt n :=
          Nat.mul_lt_mul_of_lt_of_le (by omega) (by omega) (by omega)
      _ = n := h
  · rename_i h
    simp only [Nat.add_sub_cancel]
    exact lt_of_le_of_ne (Nat.sqrt_le n) h

/-- `math.floor` of a quotient of naturals is natural division. -/
lemma toNat_floor_nat_div (a b : ℕ) :
    Int.toNat (Int.floor ((a : ℚ) / (b : ℚ))) = a / b := by
  have h : ((a : ℚ) / (b : ℚ)) = (((a : ℤ) : ℚ) / ((b : ℕ) : ℚ)) := by
    push_cast
    ring
  rw [h, Rat.floor_intCast_div_natCast,
    show ((a : ℤ) / ((b : ℕ) : ℤ)) = ((a / b : ℕ) : ℤ) from
      (Int.natCast_div a b).symm]
  exact Int.toNat_natCast _

/-- `math.floor(a / (b / c))` over exact rationals is `a * c / b` in
natural division. -/
lemma toNat_floor_div_div (a b c : ℕ) :
    Int.toNat (Int.floor ((a : ℚ) / ((b : ℚ) / (c : ℚ)))) = a * c / b := by
  rw [div_div_eq_mul_div]
  have h : (a : ℚ) * (c : ℚ) = ((a * c : ℕ) : ℚ) := by push_cast; ring
  rw [h, toNat_floor_nat_div]

/-- In the `width < dim` branch the asserted facts hold:
`height > width` and `height ≥ dim`. -/
lemma grid_branch_facts {w h c : ℕ} (hw : 1 ≤ w) (hc : 1 ≤ c)
    (hcwh : c ≤ w * h) (hwd : w < ceil_sqrt c) :
    w < h ∧ ceil_sqrt c ≤ h := by
  have hpred : (ceil_sqrt c - 1) * (ceil_sqrt c - 1) < c := pred_ceil_sqrt_sq_lt hc
  have hw' : w ≤ ceil_sqrt c - 1 := by omega
  have h1 : c ≤ (ceil_sqrt c - 1) * h := le_trans hcwh (Nat.mul_le_mul_right h hw')
  have h2 : (ceil_sqrt c - 1) * (ceil_sqrt c - 1) < (ceil_sqrt c - 1) * h :=
    lt_of_lt_of_le hpred h1
  have h3 : ceil_sqrt c - 1 < h := lt_of_mul_lt_mul_left h2 (Nat.zero_le _)
  have hd2 : 2 ≤ ceil_sqrt c := by omega
  exact ⟨by omega, by omega⟩

/-- In the `width < dim` branch, `chunks_per_image` dominates `width`. -/
lemma grid_branch_c_ge {w c : ℕ} (hw : 1 ≤ w) (hc : 1 ≤ c)
    (hwd : w < ceil_sqrt c) : w < c := by
  have hpred : (ceil_sqrt c - 1) * (ceil_sqrt c - 1) < c := pred_ceil_sqrt_sq_lt hc
  have hd2 : 2 ≤ ceil_sqrt c := by omega
  have h1 : ceil_sqrt c - 1 ≤ (ceil_sqrt c - 1) * (ceil_sqrt c - 1) :=
    Nat.le_mul_of_pos_left _ (by omega)
  omega

/-- Core facts about `chunk_image_dimensions` when subdivision is possible:
both components positive and bounded by their axis, and the grid provides at
least `chunks_per_image` cells: `c * (w_pc * h_pc) ≤ w * h`. -/
lemma chunk_image_dimensions_spec {w h c : ℕ} (hw : 1 ≤ w) (hh : 1 ≤ h)
    (hc : 1 ≤ c) (hcwh : c ≤ w * h) :
    1 ≤ (chunk_image_dimensions w h c).1 ∧
    1 ≤ (chunk_image_dimensions w h c).2 ∧
    c * ((chunk_image_dimensions w h c).1 * (chunk_image_dimensions w h c).2)
      ≤ w * h ∧
    (chunk_image_dimensions w h c).1 ≤ w ∧
    (chunk_image_dimensions w h c).2 ≤ h := by
  unfold chunk_image_dimensions
  rw [if_neg (by omega : ¬ w * h < c)]
  simp only
  by_cases hwd : w < ceil_sqrt c
  · rw [if_pos hwd, toNat_floor_div_div]
    have hcw : w < c := grid_branch_c_ge hw hc hwd
    have h1c : 1 ≤ h * w / c := by
      rw [Nat.one_le_div_iff (by omega)]
      calc c ≤ w * h := hcwh
        _ = h * w := Nat.mul_comm w h
    rw [max_eq_right h1c]
    refine ⟨le_rfl, h1c, ?_, hw, ?_⟩
    · calc c * (1 * (h * w / c)) = h * w / c * c := by ring
        _ ≤ h * w := Nat.div_mul_le_self (h * w) c
        _ = w * h := Nat.mul_comm h w
    · calc h * w / c ≤ h * w / w := Nat.div_le_div_left (le_of_lt hcw) hw
        _ = h := Nat.mul_div_cancel h hw
  · rw [if_neg hwd]
    by_cases hhd : h < ceil_sqrt c
    · rw [if_pos hhd, toNat_floor_div_div]
      have hcw : h < c := grid_branch_c_ge hh hc hhd
      have h1c : 1 ≤ w * h / c := by
        rw [Nat.one_le_div_iff (by omega)]
        exact hcwh
      rw [max_eq_right h1c]
      refine ⟨h1c, le_rfl, ?_, ?_, hh⟩
      · calc c * (w * h / c * 1) = w * h / c * c := by ring
          _ ≤ w * h := Nat.div_mul_le_self (w * h) c
      · calc w * h / c ≤ w * h / h := Nat.div_le_div_left (le_of_lt hcw) hh
          _ = w := Nat.mul_div_cancel w hh
    · rw [if_neg hhd]
      push_neg at hwd hhd
      have hd1 : 1 ≤ ceil_sqrt c := ceil_sqrt_pos hc
      have hwp : 1 ≤ w / ceil_sqrt c := by
        rw [Nat.one_le_div_iff (by omega)]
        exact hwd
      have hhp : 1 ≤ h / ceil_sqrt c := by
        rw [Nat.one_le_div_iff (by omega)]
        exact hhd
      refine ⟨hwp, hhp, ?_, Nat.div_le_self _ _, Nat.div_le_self _ _⟩
      calc c * (w / ceil_sqrt c * (h / ceil_sqrt c))
          ≤ ceil_sqrt c * ceil_sqrt c * (w / ceil_sqrt c * (h / ceil_sqrt c)) :=
            Nat.mul_le_mul_right _ (le_ceil_sqrt_sq c)
        _ = (w / ceil_sqrt c * ceil_sqrt c) * (h / ceil_sqrt c * ceil_sqrt c) := by
            ring
        _ ≤ w * h :=
            Nat.mul_le_mul (Nat.div_mul_le_self w _) (Nat.div_mul_le_self h _)

/-- Both components of `chunk_image_dimensions` are positive for any
positive inputs (including the over-subdivided `(1,1)` case). -/
lemma chunk_image_dimensions_pos {w h c : ℕ} (hw : 1 ≤ w) (hh : 1 ≤ h)
    (hc : 1 ≤ c) :
    1 ≤ (chunk_image_dimensions w h c).1 ∧
    1 ≤ (chunk_image_dimensions w h c).2 := by
  by_cases hcwh : w * h < c
  · unfold chunk_image_dimensions
    rw [if_pos hcwh]
    exact ⟨le_rfl, le_rfl⟩
  · obtain ⟨h1, h2, _⟩ := chunk_image_dimensions_spec hw hh hc (by omega)
    exact ⟨h1, h2⟩

/-! ### Layout lemmas -/

/-- The images-then-spectra layout is `_chunk` applied to per-axis sizes
that are all positive. -/
lemma images_then_spectra_sizes (b : ImageBounds) {cpl lpc : ℕ}
    (hw : 1 ≤ b.layer_width) (hh : 1 ≤ b.layer_height) (hcpl : 1 ≤ cpl)
    (_hlpc : 1 ≤ lpc) :
    ∃ sW sH sS, 1 ≤ sW ∧ 1 ≤ sH ∧ 1 ≤ sS ∧
      _chunk_images_then_spectra b cpl lpc = _chunk b lpc sW sH sS := by
  obtain ⟨h1, h2⟩ := chunk_image_dimensions_pos hw hh hcpl
  exact ⟨_, _, _, h1, h2, le_max_left 1 _, rfl⟩

/-- The spectra-then-images layout is `_chunk` applied to per-axis sizes
that are all positive. -/
lemma spectra_then_images_sizes (b : ImageBounds) {cpl lpc : ℕ}
    (hw : 1 ≤ b.layer_width) (hh : 1 ≤ b.layer_height)
    (hsp : 1 ≤ b.spectrum_length) (hcpl : 1 ≤ cpl) (_hlpc : 1 ≤ lpc) :
    ∃ sW sH sS, 1 ≤ sW ∧ 1 ≤ sH ∧ 1 ≤ sS ∧
      _chunk_spectra_then_images b cpl lpc = _chunk b lpc sW sH sS := by
  have hspc : (1 : ℕ) ≤ max 1 (Int.toNat (Int.floor
      ((b.spectrum_length : ℚ) / (cpl : ℚ)))) := le_max_left 1 _
  have hcps : (0 : ℚ) < (b.spectrum_length : ℚ) /
      ((max 1 (Int.toNat (Int.floor
        ((b.spectrum_length : ℚ) / (cpl : ℚ)))) : ℕ) : ℚ) := by
    apply div_pos
    · exact_mod_cast hsp
    · exact_mod_cast hspc
  have hcpi : (1 : ℕ) ≤ Int.toNat (Int.ceil ((cpl : ℚ) /
      ((b.spectrum_length : ℚ) / ((max 1 (Int.toNat (Int.floor
        ((b.spectrum_length : ℚ) / (cpl : ℚ)))) : ℕ) : ℚ)))) := by
    have hpos : (0 : ℚ) < (cpl : ℚ) / ((b.spectrum_length : ℚ) /
        ((max 1 (Int.toNat (Int.floor
          ((b.spectrum_length : ℚ) / (cpl : ℚ)))) : ℕ) : ℚ)) := by
      apply div_pos
      · exact_mod_cast hcpl
      · exact hcps
    have := Int.ceil_pos.2 hpos
    omega
  obtain ⟨h1, h2⟩ := chunk_image_dimensions_pos hw hh hcpi
  exact ⟨_, _, _, h1, h2, le_max_left 1 _, rfl⟩

/-! ### Memory-budget solver lemmas -/

lemma approximate_size_gb_full (b : ImageBounds) :
    (full_chunk b).approximate_size_gb =
      (b.layer_count : ℚ) * (b.layer_width : ℚ) * (b.layer_height : ℚ)
        * (b.spectrum_length : ℚ) * 4 / 1024 / 1024 / 1024 := by
  unfold full_chunk ChunkBounds.approximate_size_gb
  push_cast
  ring

lemma total_gb_nonneg (b : ImageBounds) :
    0 ≤ (full_chunk b).approximate_size_gb := by
  rw [approximate_size_gb_full]
  positivity

lemma total_gb_pos (b : ImageBounds) (h1 : 1 ≤ b.layer_count)
    (h2 : 1 ≤ b.layer_width) (h3 : 1 ≤ b.layer_height)
    (h4 : 1 ≤ b.spectrum_length) :
    0 < (full_chunk b).approximate_size_gb := by
  rw [approximate_size_gb_full]
  have c1 : (0 : ℚ) < (b.layer_count : ℚ) := by exact_mod_cast h1
  have c2 : (0 : ℚ) < (b.layer_width : ℚ) := by exact_mod_cast h2
  have c3 : (0 : ℚ) < (b.layer_height : ℚ) := by exact_mod_cast h3
  have c4 : (0 : ℚ) < (b.spectrum_length : ℚ) := by exact_mod_cast h4
  positivity

/-- Evaluation of the solver when no memory ceiling is supplied. -/
lemma calculate_none_eq {ccm p : ℤ} (b : ImageBounds) (hp : ¬ p < 1) :
    MemoryInfo.calculate ccm none p b =
      some ⟨(full_chunk b).approximate_size_gb,
        (full_chunk b).approximate_size_gb
          / (((if ccm ≤ 0 then 1 else ccm) : ℤ) : ℚ),
        if ccm ≤ 0 then 1 else ccm⟩ := by
  unfold MemoryInfo.calculate
  rw [if_neg hp]

/-- Evaluation of the solver when a (positive) memory ceiling is supplied. -/
lemma calculate_some_eq {ccm p : ℤ} {g : ℚ} (b : ImageBounds) (hp : ¬ p < 1)
    (hg : ¬ g ≤ 0) :
    MemoryInfo.calculate ccm (some g) p b =
      some ⟨(full_chunk b).approximate_size_gb,
        (full_chunk b).approximate_size_gb
          / (((if g < (full_chunk b).approximate_size_gb
              / (((if ccm ≤ 0 then 1 else ccm) : ℤ) : ℚ) * (p : ℚ) then
            Int.ceil ((full_chunk b).approximate_size_gb / (g / (p : ℚ)))
          else if ccm ≤ 0 then 1 else ccm) : ℤ) : ℚ),
        if g < (full_chunk b).approximate_size_gb
            / (((if ccm ≤ 0 then 1 else ccm) : ℤ) : ℚ) * (p : ℚ) then
          Int.ceil ((full_chunk b).approximate_size_gb / (g / (p : ℚ)))
        else if ccm ≤ 0 then 1 else ccm⟩ := by
  unfold MemoryInfo.calculate
  rw [if_neg hp]
  simp only [if_neg hg]

lemma solver_fails_lt_one {ccm p : ℤ} {g : Option ℚ} {b : ImageBounds}
    (hp : p < 1) : MemoryInfo.calculate ccm g p b = none := by
  unfold MemoryInfo.calculate
  rw [if_pos hp]

lemma solver_fails_bad_gb {ccm p : ℤ} {g : ℚ} {b : ImageBounds}
    (hg : g ≤ 0) : MemoryInfo.calculate ccm (some g) p b = none := by
  unfold MemoryInfo.calculate
  by_cases hp : p < 1
  · rw [if_pos hp]
  · rw [if_neg hp]
    simp only [if_pos hg]

/-- Whenever the solver returns, the resulting chunk count is at least the
requested minimum and at least 1. -/
lemma solver_min_count {ccm : ℤ} {g : Option ℚ} {p : ℤ} {b : ImageBounds}
    {mi : MemoryInfo} (h : MemoryInfo.calculate ccm g p b = some mi) :
    ccm ≤ mi.min_chunk_count ∧ 1 ≤ mi.min_chunk_count := by
  by_cases hp : p < 1
  · rw [solver_fails_lt_one hp] at h
    exact absurd h (by simp)
  rcases g with _ | q
  · rw [calculate_none_eq b hp] at h
    injection h with h'
    have hm : mi.min_chunk_count = (if ccm ≤ 0 then 1 else ccm) := by
      rw [← h']
    rw [hm]
    split <;> omega
  by_cases hq : q ≤ 0
  · rw [solver_fails_bad_gb hq] at h
    exact absurd h (by simp)
  rw [calculate_some_eq b hp hq] at h
  injection h with h'
  have hm : mi.min_chunk_count =
      (if q < (full_chunk b).approximate_size_gb
          / (((if ccm ≤ 0 then 1 else ccm) : ℤ) : ℚ) * (p : ℚ) then
        Int.ceil ((full_chunk b).approximate_size_gb / (q / (p : ℚ)))
      else if ccm ≤ 0 then 1 else ccm) := by
    rw [← h']
  by_cases hcond : q < (full_chunk b).approximate_size_gb
      / (((if ccm ≤ 0 then 1 else ccm) : ℤ) : ℚ) * (p : ℚ)
  · rw [hm, if_pos hcond]
    push_neg at hq
    have hp' : (0 : ℚ) < (p : ℚ) := by
      have h1 : (1 : ℤ) ≤ p := by omega
      exact_mod_cast lt_of_lt_of_le zero_lt_one (by exact_mod_cast h1)
    have hccm : (1 : ℤ) ≤ (if ccm ≤ 0 then 1 else ccm) := by split <;> omega
    have hccm' : (0 : ℚ) < (((if ccm ≤ 0 then 1 else ccm) : ℤ) : ℚ) := by
      exact_mod_cast lt_of_lt_of_le zero_lt_one (by exact_mod_cast hccm)
    have hT : (0 : ℚ) < (full_chunk b).approximate_size_gb := by
      by_contra hT0
      push_neg at hT0
      have h1 : (full_chunk b).approximate_size_gb
          / (((if ccm ≤ 0 then 1 else ccm) : ℤ) : ℚ) ≤ 0 :=
        div_nonpos_of_nonpos_of_nonneg hT0 (le_of_lt hccm')
      have h2 : (full_chunk b).approximate_size_gb
          / (((if ccm ≤ 0 then 1 else ccm) : ℤ) : ℚ) * (p : ℚ) ≤ 0 :=
        mul_nonpos_of_nonpos_of_nonneg h1 (le_of_lt hp')
      exact absurd (lt_of_lt_of_le hcond h2) (not_lt.2 (le_of_lt hq))
    have hgp : (0 : ℚ) < q / (p : ℚ) := div_pos hq hp'
    have hx : (0 : ℚ) < (full_chunk b).approximate_size_gb / (q / (p : ℚ)) :=
      div_pos hT hgp
    have hceil : 1 ≤ Int.ceil ((full_chunk b).approximate_size_gb
        / (q / (p : ℚ))) := Int.ceil_pos.2 hx
    have hqp : q / (p : ℚ) < (full_chunk b).approximate_size_gb
        / (((if ccm ≤ 0 then 1 else ccm) : ℤ) : ℚ) :=
      (div_lt_iff₀ hp').2 hcond
    have hlt : (((if ccm ≤ 0 then 1 else ccm) : ℤ) : ℚ) <
        (full_chunk b).approximate_size_gb / (q / (p : ℚ)) := by
      rw [lt_div_iff₀ hgp]
      calc (((if ccm ≤ 0 then 1 else ccm) : ℤ) : ℚ) * (q / (p : ℚ))
          = q / (p : ℚ) * (((if ccm ≤ 0 then 1 else ccm) : ℤ) : ℚ) := by ring
        _ < (full_chunk b).approximate_size_gb := (lt_div_iff₀ hccm').1 hqp
    have h2 := Int.lt_ceil.2 hlt
    split at h2 <;> omega
  · rw [hm, if_neg hcond]
    split <;> omega

/-- Whenever the solver returns with a supplied ceiling, the concurrent
footprint respects the ceiling: `max_chunk_gb * processors ≤ gb_max`. -/
lemma solver_ceiling {ccm p : ℤ} {g : ℚ} {b : ImageBounds} {mi : MemoryInfo}
    (hp : ¬ p < 1) (hg : 0 < g)
    (h : MemoryInfo.calculate ccm (some g) p b = some mi) :
    mi.max_chunk_gb * (p : ℚ) ≤ g := by
  rw [calculate_some_eq b hp (not_le.2 hg)] at h
  injection h with h'
  have hp' : (0 : ℚ) < (p : ℚ) := by
    have h1 : (1 : ℤ) ≤ p := by omega
    exact_mod_cast lt_of_lt_of_le zero_lt_one (by exact_mod_cast h1)
  have hm : mi.max_chunk_gb = (full_chunk b).approximate_size_gb
      / (((if g < (full_chunk b).approximate_size_gb
          / (((if ccm ≤ 0 then 1 else ccm) : ℤ) : ℚ) * (p : ℚ) then
        Int.ceil ((full_chunk b).approximate_size_gb / (g / (p : ℚ)))
      else if ccm ≤ 0 then 1 else ccm) : ℤ) : ℚ) := by
    rw [← h']
  by_cases hcond : g < (full_chunk b).approximate_size_gb
      / (((if ccm ≤ 0 then 1 else ccm) : ℤ) : ℚ) * (p : ℚ)
  · rw [hm, if_pos hcond]
    have hccm : (1 : ℤ) ≤ (if ccm ≤ 0 then 1 else ccm) := by split <;> omega
    have hccm' : (0 : ℚ) < (((if ccm ≤ 0 then 1 else ccm) : ℤ) : ℚ) := by
      exact_mod_cast lt_of_lt_of_le zero_lt_one (by exact_mod_cast hccm)
    have hT : (0 : ℚ) < (full_chunk b).approximate_size_gb := by
      by_contra hT0
      push_neg at hT0
      have h1 : (full_chunk b).approximate_size_gb
          / (((if ccm ≤ 0 then 1 else ccm) : ℤ) : ℚ) ≤ 0 :=
        div_nonpos_of_nonpos_of_nonneg hT0 (le_of_lt hccm')
      have h2 : (full_chunk b).approximate_size_gb
          / (((if ccm ≤ 0 then 1 else ccm) : ℤ) : ℚ) * (p : ℚ) ≤ 0 :=
        mul_nonpos_of_nonpos_of_nonneg h1 (le_of_lt hp')
      exact absurd (lt_of_lt_of_le hcond h2) (not_lt.2 (le_of_lt hg))
    have hgp : (0 : ℚ) < g / (p : ℚ) := div_pos hg hp'
    have hx : (0 : ℚ) < (full_chunk b).approximate_size_gb / (g / (p : ℚ)) :=
      div_pos hT hgp
    have hceil : 1 ≤ Int.ceil ((full_chunk b).approximate_size_gb
        / (g / (p : ℚ))) := Int.ceil_pos.2 hx
    have hK : (0 : ℚ) < ((Int.ceil ((full_chunk b).approximate_size_gb
        / (g / (p : ℚ)))) : ℚ) := by
      exact_mod_cast lt_of_lt_of_le zero_lt_one (by exact_mod_cast hceil)
    have hle : (full_chunk b).approximate_size_gb / (g / (p : ℚ)) ≤
        ((Int.ceil ((full_chunk b).approximate_size_gb
          / (g / (p : ℚ)))) : ℚ) := Int.le_ceil _
    rw [div_le_iff₀ hgp] at hle
    rw [div_mul_eq_mul_div, div_le_iff₀ hK]
    have hpne : (p : ℚ) ≠ 0 := ne_of_gt hp'
    have hstep : ((Int.ceil ((full_chunk b).approximate_size_gb
        / (g / (p : ℚ)))) : ℚ) * (g / (p : ℚ)) * (p : ℚ) =
        g * ((Int.ceil ((full_chunk b).approximate_size_gb
          / (g / (p : ℚ)))) : ℚ) := by
      field_simp
      ring
    calc (full_chunk b).approximate_size_gb * (p : ℚ)
        ≤ ((Int.ceil ((full_chunk b).approximate_size_gb
            / (g / (p : ℚ)))) : ℚ) * (g / (p : ℚ)) * (p : ℚ) :=
          mul_le_mul_of_nonneg_right hle (le_of_lt hp')
      _ = g * ((Int.ceil ((full_chunk b).approximate_size_gb
            / (g / (p : ℚ)))) : ℚ) := hstep
  · rw [hm, if_neg hcond]
    push_neg at hcond
    calc (full_chunk b).approximate_size_gb
          / (((if ccm ≤ 0 then 1 else ccm) : ℤ) : ℚ) * (p : ℚ) ≤ g := hcond

/-- `calculate_chunks` fails exactly when the solver fails. -/
lemma calculate_chunks_none_iff {ccm p : ℤ} {g : Option ℚ} {b : ImageBounds} :
    calculate_chunks ccm g p b = none ↔
      MemoryInfo.calculate ccm g p b = none := by
  unfold calculate_chunks
  cases hx : MemoryInfo.calculate ccm g p b <;> simp [hx]

/-- A successful `calculate_chunks` run is the two layouts applied to a
positive layer granularity, together with the solver's report. -/
lemma calculate_chunks_layouts {ccm p : ℤ} {g : Option ℚ} {b : ImageBounds}
    {r : List ChunkBounds × List ChunkBounds × MemoryInfo}
    (hb1 : 1 ≤ b.layer_count)
    (h : calculate_chunks ccm g p b = some r) :
    ∃ lpc cpl, 1 ≤ lpc ∧ 1 ≤ cpl ∧
      MemoryInfo.calculate ccm g p b = some r.2.2 ∧
      r.1 = _chunk_images_then_spectra b cpl lpc ∧
      r.2.1 = _chunk_spectra_then_images b cpl lpc := by
  unfold calculate_chunks at h
  rw [Option.bind_eq_some] at h
  obtain ⟨mi, hmi, hr⟩ := h
  simp only at hr
  injection hr with hr'
  by_cases hcase : mi.min_chunk_count < (b.layer_count : ℤ)
  · rw [if_pos hcase] at hr'
    refine ⟨max 1 (Int.toNat (Int.floor
      ((b.layer_count : ℚ) / (mi.min_chunk_count : ℚ)))), 1,
      le_max_left 1 _, le_rfl, ?_, ?_, ?_⟩
    · rw [← hr']
      exact hmi
    · rw [← hr']
    · rw [← hr']
  · rw [if_neg hcase] at hr'
    have hm1 : 1 ≤ mi.min_chunk_count := (solver_min_count hmi).2
    have hmL : (b.layer_count : ℤ) ≤ mi.min_chunk_count := by omega
    have hcpl : 1 ≤ Int.toNat (Int.ceil
        ((mi.min_chunk_count : ℚ) / (b.layer_count : ℚ))) := by
      have hL' : (0 : ℚ) < (b.layer_count : ℚ) := by exact_mod_cast hb1
      have hm' : (0 : ℚ) < (mi.min_chunk_count : ℚ) := by exact_mod_cast hm1
      have hpos : (0 : ℚ) < (mi.min_chunk_count : ℚ) / (b.layer_count : ℚ) :=
        div_pos hm' hL'
      have := Int.ceil_pos.2 hpos
      omega
    refine ⟨1, Int.toNat (Int.ceil
      ((mi.min_chunk_count : ℚ) / (b.layer_count : ℚ))), le_rfl, hcpl,
      ?_, ?_, ?_⟩
    · rw [← hr']
      exact hmi
    · rw [← hr']
    · rw [← hr']

/-- Both layout lists of a successful run are exact partitions. -/
lemma calculate_chunks_partitions {ccm p : ℤ} {g : Option ℚ} {b : ImageBounds}
    {r : List ChunkBounds × List ChunkBounds × MemoryInfo}
    (hb1 : 1 ≤ b.layer_count) (hb2 : 1 ≤ b.layer_width)
    (hb3 : 1 ≤ b.layer_height) (hb4 : 1 ≤ b.spectrum_length)
    (h : calculate_chunks ccm g p b = some r) :
    IsExactPartition r.1 b ∧ IsExactPartition r.2.1 b := by
  obtain ⟨lpc, cpl, hlpc, hcpl, _, h1, h2⟩ := calculate_chunks_layouts hb1 h
  constructor
  · obtain ⟨sW, sH, sS, hW, hH, hS, heq⟩ :=
      images_then_spectra_sizes b hb2 hb3 hcpl hlpc
    rw [h1, heq]
    exact chunk_partition b hlpc hW hH hS
  · obtain ⟨sW, sH, sS, hW, hH, hS, heq⟩ :=
      spectra_then_images_sizes b hb2 hb3 hb4 hcpl hlpc
    rw [h2, heq]
    exact chunk_partition b hlpc hW hH hS

/-- Every chunk produced by `_chunk` with positive sizes has positive
extents on all four axes. -/
lemma chunk_extent_pos_of_mem {b : ImageBounds} {sL sW sH sS : ℕ}
    (hL : 1 ≤ sL) (hW : 1 ≤ sW) (hH : 1 ≤ sH) (hS : 1 ≤ sS)
    {c : ChunkBounds} (hc : c ∈ _chunk b sL sW sH sS) :
    c.layer.start < c.layer.stop ∧ c.width.start < c.width.stop ∧
    c.height.start < c.height.stop ∧ c.spectra.start < c.spectra.stop := by
  rcases mem_chunk_iff.1 hc with ⟨ii, hii, jj, hjj, kk, hkk, ll, hll, rfl⟩
  exact ⟨slab_extent_pos hL hii, slab_extent_pos hW hjj,
    slab_extent_pos hH hkk, slab_extent_pos hS hll⟩

/-- The set of layer slices appearing in `_chunk` with nonempty inner axes
is exactly the set of layer slabs. -/
lemma chunk_layer_slices {b : ImageBounds} {sL sW sH sS : ℕ}
    (hW' : 1 ≤ ceil_div b.layer_width sW)
    (hH' : 1 ≤ ceil_div b.layer_height sH)
    (hS' : 1 ≤ ceil_div b.spectrum_length sS) (sl : Slice) :
    (∃ c ∈ _chunk b sL sW sH sS, c.layer = sl) ↔
      ∃ ii < ceil_div b.layer_count sL, sl = slab b.layer_count sL ii := by
  constructor
  · rintro ⟨c, hc, rfl⟩
    rcases mem_chunk_iff.1 hc with ⟨ii, hii, jj, _, kk, _, ll, _, rfl⟩
    exact ⟨ii, hii, rfl⟩
  · rintro ⟨ii, hii, rfl⟩
    exact ⟨_, mem_chunk_iff.2 ⟨ii, hii, 0, hW', 0, hH', 0, hS', rfl⟩, rfl⟩

/-- The asserted branch facts of `chunk_image_dimensions` hold, so the
assert-faithful variant returns the same value. -/
lemma checked_eq_unchecked {w h c : ℕ} (hw : 1 ≤ w) (hh : 1 ≤ h)
    (hc : 1 ≤ c) (hcwh : c ≤ w * h) :
    chunk_image_dimensions_checked w h c =
      some (chunk_image_dimensions w h c) := by
  unfold chunk_image_dimensions_checked chunk_image_dimensions
  rw [if_neg (by omega : ¬ w * h < c), if_neg (by omega : ¬ w * h < c)]
  simp only
  by_cases hwd : w < ceil_sqrt c
  · obtain ⟨hwlt, hdle⟩ := grid_branch_facts hw hc hcwh hwd
    rw [if_pos hwd, if_pos hwd, if_pos ⟨hwlt, hdle⟩]
  · rw [if_neg hwd, if_neg hwd]
    by_cases hhd : h < ceil_sqrt c
    · have hcwh' : c ≤ h * w := by
        calc c ≤ w * h := hcwh
          _ = h * w := Nat.mul_comm w h
      obtain ⟨hhlt, hdle⟩ := grid_branch_facts hh hc hcwh' hhd
      rw [if_pos hhd, if_pos hhd, if_pos ⟨hhlt, hdle⟩]
    · rw [if_neg hhd, if_neg hhd]
      push_neg at hwd hhd
      rw [if_pos ⟨hwd, hhd⟩]

/-- A chunk with positive layer and spectra extents is not skipped by the
degenerate-chunk guard of `process_chunk_on_disk`. -/
lemma skipped_on_disk_false {c : ChunkBounds}
    (h1 : c.layer.start < c.layer.stop)
    (h4 : c.spectra.start < c.spectra.stop) :
    c.skipped_on_disk = false := by
  unfold ChunkBounds.skipped_on_disk
  simp only [Bool.or_eq_false_iff, beq_eq_false_iff_ne, ne_eq,
    Nat.sub_eq_zero_iff_le]
  omega

/-! ### Concrete evaluations for the two concrete-scenario claims -/

lemma grid_10_10_1 : chunk_image_dimensions 10 10 1 = (10, 10) := by
  unfold chunk_image_dimensions ceil_sqrt
  norm_num

lemma images_layout_c5 :
    _chunk_images_then_spectra ⟨5, 10, 10, 100⟩ 1 1 =
      _chunk ⟨5, 10, 10, 100⟩ 1 10 10 100 := by
  unfold _chunk_images_then_spectra
  rw [grid_10_10_1]
  norm_num [show Int.toNat (100 : ℤ) = (100 : ℕ) from rfl]

lemma spectra_layout_c5 :
    _chunk_spectra_then_images ⟨5, 10, 10, 100⟩ 1 1 =
      _chunk ⟨5, 10, 10, 100⟩ 1 10 10 100 := by
  unfold _chunk_spectra_then_images
  norm_num [show Int.toNat (100 : ℤ) = (100 : ℕ) from rfl, grid_10_10_1]

lemma solver_c5 :
    MemoryInfo.calculate 4 none 1 ⟨5, 10, 10, 100⟩ =
      some ⟨3125 / 16777216, 3125 / 67108864, 4⟩ := by
  rw [calculate_none_eq _ (by norm_num)]
  norm_num [approximate_size_gb_full]

lemma calculate_chunks_c5 :
    calculate_chunks 4 none 1 ⟨5, 10, 10, 100⟩ =
      some (_chunk ⟨5, 10, 10, 100⟩ 1 10 10 100,
        _chunk ⟨5, 10, 10, 100⟩ 1 10 10 100,
        ⟨3125 / 16777216, 3125 / 67108864, 4⟩) := by
  unfold calculate_chunks
  rw [solver_c5, Option.some_bind]
  norm_num [images_layout_c5, spectra_layout_c5]

lemma grid_10_10_5 : chunk_image_dimensions 10 10 5 = (3, 3) := by
  unfold chunk_image_dimensions ceil_sqrt
  norm_num

lemma solver_c4 :
    MemoryInfo.calculate 5 none 1 ⟨1, 10, 10, 7⟩ =
      some ⟨175 / 67108864, 35 / 67108864, 5⟩ := by
  rw [calculate_none_eq _ (by norm_num)]
  norm_num [approximate_size_gb_full]

lemma images_layout_c4 :
    _chunk_images_then_spectra ⟨1, 10, 10, 7⟩ 5 1 =
      _chunk ⟨1, 10, 10, 7⟩ 1 3 3 7 := by
  unfold _chunk_images_then_spectra
  rw [grid_10_10_5]
  norm_num [show Int.ceil ((9 : ℚ) / 20) = (1 : ℤ) from by rw [Int.ceil_eq_iff]; norm_num,
    show Int.toNat (7 : ℤ) = (7 : ℕ) from rfl]

lemma spectra_layout_c4 :
    _chunk_spectra_then_images ⟨1, 10, 10, 7⟩ 5 1 =
      _chunk ⟨1, 10, 10, 7⟩ 1 10 10 1 := by
  unfold _chunk_spectra_then_images
  norm_num [show Int.ceil ((5 : ℚ) / 7) = (1 : ℤ) from by rw [Int.ceil_eq_iff]; norm_num,
    show Int.toNat (1 : ℤ) = (1 : ℕ) from rfl, grid_10_10_1]

lemma calculate_chunks_c4 :
    calculate_chunks 5 none 1 ⟨1, 10, 10, 7⟩ =
      some (_chunk ⟨1, 10, 10, 7⟩ 1 3 3 7,
        _chunk ⟨1, 10, 10, 7⟩ 1 10 10 1,
        ⟨175 / 67108864, 35 / 67108864, 5⟩) := by
  unfold calculate_chunks
  rw [solver_c4, Option.some_bind]
  norm_num [images_layout_c4, spectra_layout_c4,
    show Int.toNat (5 : ℤ) = (5 : ℕ) from rfl]

/-! ### Claim theorems -/

lemma solver_simple_some :
    MemoryInfo.calculate 1 (some 1) 1 ⟨1, 1, 1, 1⟩ =
      some ⟨1 / 268435456, 1 / 268435456, 1⟩ := by
  rw [calculate_some_eq _ (by norm_num) (by norm_num)]
  norm_num [approximate_size_gb_full]

lemma solver_neg_ccm :
    MemoryInfo.calculate (-7) none 1 ⟨1, 1, 1, 1⟩ =
      some ⟨1 / 268435456, 1 / 268435456, 1⟩ := by
  rw [calculate_none_eq _ (by norm_num)]
  norm_num [approximate_size_gb_full]

/-- C2: for every positive `ImageBounds`, every `worker_count ≥ 1` and every
supplied memory ceiling `max_memory_gb > 0`, the solver returns a
`MemoryInfo` with `max_chunk_gb * worker_count ≤ max_memory_gb`, exactly
over exact rational arithmetic. -/
theorem C2_solver_respects_ceiling (ccm : ℤ) (g : ℚ) (p : ℤ)
    (b : ImageBounds) (_hb1 : 1 ≤ b.layer_count) (_hb2 : 1 ≤ b.layer_width)
    (_hb3 : 1 ≤ b.layer_height) (_hb4 : 1 ≤ b.spectrum_length)
    (hp : 1 ≤ p) (hg : 0 < g) (mi : MemoryInfo)
    (h : MemoryInfo.calculate ccm (some g) p b = some mi) :
    mi.max_chunk_gb * (p : ℚ) ≤ g :=
  solver_ceiling (by omega) hg h

theorem C2_witness :
    (MemoryInfo.mk (1 / 268435456) (1 / 268435456) 1).max_chunk_gb
      * ((1 : ℤ) : ℚ) ≤ 1 :=
  C2_solver_respects_ceiling 1 1 1 ⟨1, 1, 1, 1⟩ (by norm_num) (by norm_num)
    (by norm_num) (by norm_num) (by norm_num) (by norm_num)
    ⟨1 / 268435456, 1 / 268435456, 1⟩ solver_simple_some

/-- C3: for every positive `ImageBounds`, `worker_count ≥ 1`, optional
positive ceiling and any integer requested minimum chunk count, the solver
returns a `MemoryInfo` whose `min_chunk_count` is at least the requested
minimum and at least 1 (a requested minimum ≤ 0 is treated as 1). -/
theorem C3_solver_min_chunk_count (ccm : ℤ) (g : Option ℚ) (p : ℤ)
    (b : ImageBounds) (_hb1 : 1 ≤ b.layer_count) (_hb2 : 1 ≤ b.layer_width)
    (_hb3 : 1 ≤ b.layer_height) (_hb4 : 1 ≤ b.spectrum_length)
    (_hp : 1 ≤ p) (_hg : ∀ q, g = some q → 0 < q) (mi : MemoryInfo)
    (h : MemoryInfo.calculate ccm g p b = some mi) :
    ccm ≤ mi.min_chunk_count ∧ 1 ≤ mi.min_chunk_count :=
  solver_min_count h

theorem C3_witness :
    (-7 : ℤ) ≤ (MemoryInfo.mk (1 / 268435456) (1 / 268435456) 1).min_chunk_count ∧
    1 ≤ (MemoryInfo.mk (1 / 268435456) (1 / 268435456) 1).min_chunk_count :=
  C3_solver_min_chunk_count (-7) none 1 ⟨1, 1, 1, 1⟩ (by norm_num)
    (by norm_num) (by norm_num) (by norm_num) (by norm_num)
    (fun q hq => by cases hq) ⟨1 / 268435456, 1 / 268435456, 1⟩
    solver_neg_ccm

/-- C6: for `width ≥ 1`, `height ≥ 1`, `chunks_per_image ≥ 1`: if
`chunks_per_image > width*height` the sub-solver returns `(1,1)`;
otherwise both components are at least 1 and
`(width/width_per_chunk) * (height/height_per_chunk) ≥ chunks_per_image`
over exact rational arithmetic. -/
theorem C6_grid_spec (w h c : ℕ) (hw : 1 ≤ w) (hh : 1 ≤ h) (hc : 1 ≤ c) :
    (w * h < c → chunk_image_dimensions w h c = (1, 1)) ∧
    (c ≤ w * h →
      1 ≤ (chunk_image_dimensions w h c).1 ∧
      1 ≤ (chunk_image_dimensions w h c).2 ∧
      (c : ℚ) ≤ ((w : ℚ) / (((chunk_image_dimensions w h c).1 : ℕ) : ℚ))
        * ((h : ℚ) / (((chunk_image_dimensions w h c).2 : ℕ) : ℚ))) := by
  constructor
  · intro hlt
    unfold chunk_image_dimensions
    rw [if_pos hlt]
  · intro hle
    obtain ⟨h1, h2, h3, _⟩ := chunk_image_dimensions_spec hw hh hc hle
    refine ⟨h1, h2, ?_⟩
    have hp1 : (0 : ℚ) < (((chunk_image_dimensions w h c).1 : ℕ) : ℚ) := by
      exact_mod_cast h1
    have hp2 : (0 : ℚ) < (((chunk_image_dimensions w h c).2 : ℕ) : ℚ) := by
      exact_mod_cast h2
    rw [div_mul_div_comm, le_div_iff₀ (by positivity)]
    calc (c : ℚ) * ((((chunk_image_dimensions w h c).1 : ℕ) : ℚ)
          * (((chunk_image_dimensions w h c).2 : ℕ) : ℚ))
        = (((c * ((chunk_image_dimensions w h c).1
            * (chunk_image_dimensions w h c).2)) : ℕ) : ℚ) := by push_cast; ring
      _ ≤ (((w * h) : ℕ) : ℚ) := by exact_mod_cast h3
      _ = (w : ℚ) * (h : ℚ) := by push_cast; ring

theorem C6_witness :
    ((10 : ℕ) * 10 < 5 → chunk_image_dimensions 10 10 5 = (1, 1)) ∧
    (5 ≤ 10 * 10 →
      1 ≤ (chunk_image_dimensions 10 10 5).1 ∧
      1 ≤ (chunk_image_dimensions 10 10 5).2 ∧
      ((5 : ℕ) : ℚ) ≤ (((10 : ℕ) : ℚ) / (((chunk_image_dimensions 10 10 5).1 : ℕ) : ℚ))
        * (((10 : ℕ) : ℚ) / (((chunk_image_dimensions 10 10 5).2 : ℕ) : ℚ))) :=
  C6_grid_spec 10 10 5 (by norm_num) (by norm_num) (by norm_num)

/-- C8: the solver fails exactly when `worker_count < 1` or a supplied
ceiling is `≤ 0`; in every other case it returns normally; and
`calculate_chunks` fails under exactly the same condition (the failure
happens in the solver, before any layout is computed). -/
theorem C8_invalid_configuration (ccm : ℤ) (g : Option ℚ) (p : ℤ)
    (b : ImageBounds) (_hb1 : 1 ≤ b.layer_count) (_hb2 : 1 ≤ b.layer_width)
    (_hb3 : 1 ≤ b.layer_height) (_hb4 : 1 ≤ b.spectrum_length) :
    (MemoryInfo.calculate ccm g p b = none ↔
      (p < 1 ∨ ∃ q, g = some q ∧ q ≤ 0)) ∧
    (calculate_chunks ccm g p b = none ↔
      (p < 1 ∨ ∃ q, g = some q ∧ q ≤ 0)) := by
  have hiff : MemoryInfo.calculate ccm g p b = none ↔
      (p < 1 ∨ ∃ q, g = some q ∧ q ≤ 0) := by
    constructor
    · intro h
      by_cases hp : p < 1
      · exact Or.inl hp
      rcases g with _ | q
      · rw [calculate_none_eq b hp] at h
        exact absurd h (by simp)
      by_cases hq : q ≤ 0
      · exact Or.inr ⟨q, rfl, hq⟩
      · rw [calculate_some_eq b hp hq] at h
        exact absurd h (by simp)
    · rintro (hp | ⟨q, rfl, hq⟩)
      · exact solver_fails_lt_one hp
      · exact solver_fails_bad_gb hq
  exact ⟨hiff, calculate_chunks_none_iff.trans hiff⟩

theorem C8_witness :
    (MemoryInfo.calculate 1 (some (-2)) 3 ⟨1, 1, 1, 1⟩ = none ↔
      ((3 : ℤ) < 1 ∨ ∃ q, (some (-2) : Option ℚ) = some q ∧ q ≤ 0)) ∧
    (calculate_chunks 1 (some (-2)) 3 ⟨1, 1, 1, 1⟩ = none ↔
      ((3 : ℤ) < 1 ∨ ∃ q, (some (-2) : Option ℚ) = some q ∧ q ≤ 0)) :=
  C8_invalid_configuration 1 (some (-2)) 3 ⟨1, 1, 1, 1⟩ (by norm_num)
    (by norm_num) (by norm_num) (by norm_num)

/-- C9: for `width ≥ 1`, `height ≥ 1`, `1 ≤ chunks_per_image ≤
width*height`, none of the internal assertions of
`chunk_image_dimensions` can fail (the assert-faithful variant returns the
same value as the assert-free one), and the `max(1, ...)` guards are
redundant because the floored per-chunk sizes are already `≥ 1`. -/
theorem C9_asserts_never_fail (w h c : ℕ) (hw : 1 ≤ w) (hh : 1 ≤ h)
    (hc : 1 ≤ c) (hcwh : c ≤ w * h) :
    chunk_image_dimensions_checked w h c =
      some (chunk_image_dimensions w h c) ∧
    (w < ceil_sqrt c →
      1 ≤ Int.toNat (Int.floor ((h : ℚ) / ((c : ℚ) / (w : ℚ))))) ∧
    (¬ w < ceil_sqrt c → h < ceil_sqrt c →
      1 ≤ Int.toNat (Int.floor ((w : ℚ) / ((c : ℚ) / (h : ℚ))))) := by
  refine ⟨checked_eq_unchecked hw hh hc hcwh, ?_, ?_⟩
  · intro hwd
    rw [toNat_floor_div_div, Nat.one_le_div_iff (by omega)]
    calc c ≤ w * h := hcwh
      _ = h * w := Nat.mul_comm w h
  · intro hwd hhd
    rw [toNat_floor_div_div, Nat.one_le_div_iff (by omega)]
    exact hcwh

/-- C1: under every valid configuration (any integer requested minimum
chunk count, optional positive memory ceiling, worker count ≥ 1) and
positive bounds, both chunk lists returned by `calculate_chunks` are exact
partitions of the volume's 4D index set: pairwise disjoint index sets,
union equal to the whole volume, pairwise distinct chunks, and element
counts summing to the volume's element count. -/
theorem C1_layouts_are_exact_partitions (ccm : ℤ) (g : Option ℚ) (p : ℤ)
    (b : ImageBounds) (hb1 : 1 ≤ b.layer_count) (hb2 : 1 ≤ b.layer_width)
    (hb3 : 1 ≤ b.layer_height) (hb4 : 1 ≤ b.spectrum_length)
    (_hp : 1 ≤ p) (_hg : ∀ q, g = some q → 0 < q)
    (r : List ChunkBounds × List ChunkBounds × MemoryInfo)
    (h : calculate_chunks ccm g p b = some r) :
    IsExactPartition r.1 b ∧ IsExactPartition r.2.1 b :=
  calculate_chunks_partitions hb1 hb2 hb3 hb4 h

theorem C1_witness :
    IsExactPartition (_chunk ⟨5, 10, 10, 100⟩ 1 10 10 100) ⟨5, 10, 10, 100⟩ ∧
    IsExactPartition (_chunk ⟨5, 10, 10, 100⟩ 1 10 10 100) ⟨5, 10, 10, 100⟩ :=
  C1_layouts_are_exact_partitions 4 none 1 ⟨5, 10, 10, 100⟩ (by norm_num)
    (by norm_num) (by norm_num) (by norm_num) (by norm_num)
    (fun q hq => by cases hq)
    (_chunk ⟨5, 10, 10, 100⟩ 1 10 10 100,
      _chunk ⟨5, 10, 10, 100⟩ 1 10 10 100,
      ⟨3125 / 16777216, 3125 / 67108864, 4⟩)
    calculate_chunks_c5

/-- C7: both chunk lists are enumerated with layer outermost, then width,
then height, then spectra innermost: each list is strictly sorted in the
lexicographic order of the four range starts; and the enumeration is
deterministic (two runs with identical inputs return identical results). -/
theorem C7_enumeration_order (ccm : ℤ) (g : Option ℚ) (p : ℤ)
    (b : ImageBounds) (hb1 : 1 ≤ b.layer_count) (hb2 : 1 ≤ b.layer_width)
    (hb3 : 1 ≤ b.layer_height) (hb4 : 1 ≤ b.spectrum_length)
    (_hp : 1 ≤ p) (_hg : ∀ q, g = some q → 0 < q)
    (r r' : List ChunkBounds × List ChunkBounds × MemoryInfo)
    (h : calculate_chunks ccm g p b = some r)
    (h2 : calculate_chunks ccm g p b = some r') :
    r.1.Pairwise chunkLexLt ∧ r.2.1.Pairwise chunkLexLt ∧ r' = r := by
  obtain ⟨lpc, cpl, hlpc, hcpl, _, hL1, hL2⟩ := calculate_chunks_layouts hb1 h
  refine ⟨?_, ?_, ?_⟩
  · obtain ⟨sW, sH, sS, hW, hH, hS, heq⟩ :=
      images_then_spectra_sizes b hb2 hb3 hcpl hlpc
    rw [hL1, heq]
    exact chunk_pairwise_lex b hlpc hW hH hS
  · obtain ⟨sW, sH, sS, hW, hH, hS, heq⟩ :=
      spectra_then_images_sizes b hb2 hb3 hb4 hcpl hlpc
    rw [hL2, heq]
    exact chunk_pairwise_lex b hlpc hW hH hS
  · rw [h] at h2
    injection h2 with he
    exact he.symm

theorem C7_witness :
    (_chunk ⟨5, 10, 10, 100⟩ 1 10 10 100,
      _chunk ⟨5, 10, 10, 100⟩ 1 10 10 100,
      (⟨3125 / 16777216, 3125 / 67108864, 4⟩ : MemoryInfo)).1.Pairwise
        chunkLexLt ∧
    (_chunk ⟨5, 10, 10, 100⟩ 1 10 10 100,
      _chunk ⟨5, 10, 10, 100⟩ 1 10 10 100,
      (⟨3125 / 16777216, 3125 / 67108864, 4⟩ : MemoryInfo)).2.1.Pairwise
        chunkLexLt ∧
    ((_chunk ⟨5, 10, 10, 100⟩ 1 10 10 100,
      _chunk ⟨5, 10, 10, 100⟩ 1 10 10 100,
      (⟨3125 / 16777216, 3125 / 67108864, 4⟩ : MemoryInfo)) :
        List ChunkBounds × List ChunkBounds × MemoryInfo) =
      (_chunk ⟨5, 10, 10, 100⟩ 1 10 10 100,
        _chunk ⟨5, 10, 10, 100⟩ 1 10 10 100,
        ⟨3125 / 16777216, 3125 / 67108864, 4⟩) :=
  C7_enumeration_order 4 none 1 ⟨5, 10, 10, 100⟩ (by norm_num) (by norm_num)
    (by norm_num) (by norm_num) (by norm_num) (fun q hq => by cases hq)
    (_chunk ⟨5, 10, 10, 100⟩ 1 10 10 100,
      _chunk ⟨5, 10, 10, 100⟩ 1 10 10 100,
      ⟨3125 / 16777216, 3125 / 67108864, 4⟩)
    (_chunk ⟨5, 10, 10, 100⟩ 1 10 10 100,
      _chunk ⟨5, 10, 10, 100⟩ 1 10 10 100,
      ⟨3125 / 16777216, 3125 / 67108864, 4⟩)
    calculate_chunks_c5 calculate_chunks_c5

/-- C10: every chunk produced by `calculate_chunks` has all four extents at
least 1, so the planner never produces a degenerate chunk and the
degenerate-chunk skip branch of `process_chunk_on_disk` is unreachable for
planner-produced chunks. -/
theorem C10_no_degenerate_chunks (ccm : ℤ) (g : Option ℚ) (p : ℤ)
    (b : ImageBounds) (hb1 : 1 ≤ b.layer_count) (hb2 : 1 ≤ b.layer_width)
    (hb3 : 1 ≤ b.layer_height) (hb4 : 1 ≤ b.spectrum_length)
    (_hp : 1 ≤ p) (_hg : ∀ q, g = some q → 0 < q)
    (r : List ChunkBounds × List ChunkBounds × MemoryInfo)
    (h : calculate_chunks ccm g p b = some r) :
    (∀ c ∈ r.1, c.layer.start < c.layer.stop ∧
      c.width.start < c.width.stop ∧ c.height.start < c.height.stop ∧
      c.spectra.start < c.spectra.stop ∧ c.skipped_on_disk = false) ∧
    (∀ c ∈ r.2.1, c.layer.start < c.layer.stop ∧
      c.width.start < c.width.stop ∧ c.height.start < c.height.stop ∧
      c.spectra.start < c.spectra.stop ∧ c.skipped_on_disk = false) := by
  obtain ⟨lpc, cpl, hlpc, hcpl, _, hL1, hL2⟩ := calculate_chunks_layouts hb1 h
  constructor
  · obtain ⟨sW, sH, sS, hW, hH, hS, heq⟩ :=
      images_then_spectra_sizes b hb2 hb3 hcpl hlpc
    rw [hL1, heq]
    intro c hc
    obtain ⟨e1, e2, e3, e4⟩ := chunk_extent_pos_of_mem hlpc hW hH hS hc
    exact ⟨e1, e2, e3, e4, skipped_on_disk_false e1 e4⟩
  · obtain ⟨sW, sH, sS, hW, hH, hS, heq⟩ :=
      spectra_then_images_sizes b hb2 hb3 hb4 hcpl hlpc
    rw [hL2, heq]
    intro c hc
    obtain ⟨e1, e2, e3, e4⟩ := chunk_extent_pos_of_mem hlpc hW hH hS hc
    exact ⟨e1, e2, e3, e4, skipped_on_disk_false e1 e4⟩

theorem C10_witness :
    (∀ c ∈ _chunk ⟨5, 10, 10, 100⟩ 1 10 10 100,
      c.layer.start < c.layer.stop ∧
      c.width.start < c.width.stop ∧ c.height.start < c.height.stop ∧
      c.spectra.start < c.spectra.stop ∧ c.skipped_on_disk = false) ∧
    (∀ c ∈ _chunk ⟨5, 10, 10, 100⟩ 1 10 10 100,
      c.layer.start < c.layer.stop ∧
      c.width.start < c.width.stop ∧ c.height.start < c.height.stop ∧
      c.spectra.start < c.spectra.stop ∧ c.skipped_on_disk = false) :=
  C10_no_degenerate_chunks 4 none 1 ⟨5, 10, 10, 100⟩ (by norm_num)
    (by norm_num) (by norm_num) (by norm_num) (by norm_num)
    (fun q hq => by cases hq)
    (_chunk ⟨5, 10, 10, 100⟩ 1 10 10 100,
      _chunk ⟨5, 10, 10, 100⟩ 1 10 10 100,
      ⟨3125 / 16777216, 3125 / 67108864, 4⟩)
    calculate_chunks_c5

/-- C4 counterexample: for `Bounds(1,10,10,7)`, requested minimum 5, no
ceiling, one worker, the images-then-spectra layout has 16 chunks while the
spectra-then-images layout has 7: the two layouts do NOT contain the same
total number of chunks. -/
theorem C4_counterexample :
    (calculate_chunks 5 none 1 ⟨1, 10, 10, 7⟩).map
      (fun r => (r.1.length, r.2.1.length)) = some (16, 7) ∧
    (calculate_chunks 5 none 1 ⟨1, 10, 10, 7⟩).map
      (fun r => decide (r.1.length = r.2.1.length)) = some false := by
  have h1 : (_chunk ⟨1, 10, 10, 7⟩ 1 3 3 7).length = 16 := by decide
  have h2 : (_chunk ⟨1, 10, 10, 7⟩ 1 10 10 1).length = 7 := by decide
  constructor <;> simp [calculate_chunks_c4, h1, h2]

/-- C4 (amended): the two layouts of one run are built with the same layer
granularity — they contain exactly the same set of layer ranges (a slice of
layers occurs in the images-then-spectra layout iff it occurs in the
spectra-then-images layout) — but their total chunk counts can differ. -/
theorem C4_amended_same_layer_slices (ccm : ℤ) (g : Option ℚ) (p : ℤ)
    (b : ImageBounds) (hb1 : 1 ≤ b.layer_count) (hb2 : 1 ≤ b.layer_width)
    (hb3 : 1 ≤ b.layer_height) (hb4 : 1 ≤ b.spectrum_length)
    (_hp : 1 ≤ p) (_hg : ∀ q, g = some q → 0 < q)
    (r : List ChunkBounds × List ChunkBounds × MemoryInfo)
    (h : calculate_chunks ccm g p b = some r) (sl : Slice) :
    (∃ c ∈ r.1, c.layer = sl) ↔ (∃ c ∈ r.2.1, c.layer = sl) := by
  obtain ⟨lpc, cpl, hlpc, hcpl, _, h1, h2⟩ := calculate_chunks_layouts hb1 h
  obtain ⟨sW, sH, sS, hW, hH, hS, heq⟩ :=
    images_then_spectra_sizes b hb2 hb3 hcpl hlpc
  obtain ⟨sW', sH', sS', hW', hH', hS', heq'⟩ :=
    spectra_then_images_sizes b hb2 hb3 hb4 hcpl hlpc
  rw [h1, heq, h2, heq']
  exact (chunk_layer_slices (ceil_div_pos hb2 hW) (ceil_div_pos hb3 hH)
      (ceil_div_pos hb4 hS) sl).trans
    (chunk_layer_slices (ceil_div_pos hb2 hW') (ceil_div_pos hb3 hH')
      (ceil_div_pos hb4 hS') sl).symm

theorem C4_witness :
    (∃ c ∈ _chunk ⟨1, 10, 10, 7⟩ 1 3 3 7, c.layer = ⟨0, 1⟩) ↔
    (∃ c ∈ _chunk ⟨1, 10, 10, 7⟩ 1 10 10 1, c.layer = ⟨0, 1⟩) :=
  C4_amended_same_layer_slices 5 none 1 ⟨1, 10, 10, 7⟩ (by norm_num)
    (by norm_num) (by norm_num) (by norm_num) (by norm_num)
    (fun q hq => by cases hq)
    (_chunk ⟨1, 10, 10, 7⟩ 1 3 3 7, _chunk ⟨1, 10, 10, 7⟩ 1 10 10 1,
      ⟨175 / 67108864, 35 / 67108864, 5⟩)
    calculate_chunks_c4 ⟨0, 1⟩

/-- C5 counterexample: for `Bounds(5,10,10,100)`, requested minimum 4, no
ceiling, one worker, the planner produces 5 chunks in each layout, not the
4 chunks the claim asserts. -/
theorem C5_counterexample :
    (calculate_chunks 4 none 1 ⟨5, 10, 10, 100⟩).map
      (fun r => r.1.length) = some 5 ∧
    (calculate_chunks 4 none 1 ⟨5, 10, 10, 100⟩).map
      (fun r => r.1.length) ≠ some 4 ∧
    (calculate_chunks 4 none 1 ⟨5, 10, 10, 100⟩).map
      (fun r => r.2.1.length) = some 5 := by
  have h1 : (_chunk ⟨5, 10, 10, 100⟩ 1 10 10 100).length = 5 := by decide
  refine ⟨?_, ?_, ?_⟩ <;> simp [calculate_chunks_c5, h1]

/-- C5 (amended): the solver returns `min_chunk_count = 4`, and the planner
partitions the 5 layers into 5 single-layer chunks (layer extents
`{1,1,1,1,1}`), each spanning the full width, height and spectrum extents,
in both layouts. -/
theorem C5_amended_concrete_run :
    calculate_chunks 4 none 1 ⟨5, 10, 10, 100⟩ =
      some ([⟨⟨0, 1⟩, ⟨0, 10⟩, ⟨0, 10⟩, ⟨0, 100⟩⟩,
          ⟨⟨1, 2⟩, ⟨0, 10⟩, ⟨0, 10⟩, ⟨0, 100⟩⟩,
          ⟨⟨2, 3⟩, ⟨0, 10⟩, ⟨0, 10⟩, ⟨0, 100⟩⟩,
          ⟨⟨3, 4⟩, ⟨0, 10⟩, ⟨0, 10⟩, ⟨0, 100⟩⟩,
          ⟨⟨4, 5⟩, ⟨0, 10⟩, ⟨0, 10⟩, ⟨0, 100⟩⟩],
        [⟨⟨0, 1⟩, ⟨0, 10⟩, ⟨0, 10⟩, ⟨0, 100⟩⟩,
          ⟨⟨1, 2⟩, ⟨0, 10⟩, ⟨0, 10⟩, ⟨0, 100⟩⟩,
          ⟨⟨2, 3⟩, ⟨0, 10⟩, ⟨0, 10⟩, ⟨0, 100⟩⟩,
          ⟨⟨3, 4⟩, ⟨0, 10⟩, ⟨0, 10⟩, ⟨0, 100⟩⟩,
          ⟨⟨4, 5⟩, ⟨0, 10⟩, ⟨0, 10⟩, ⟨0, 100⟩⟩],
        ⟨3125 / 16777216, 3125 / 67108864, 4⟩) := by
  rw [calculate_chunks_c5]
  have h : _chunk ⟨5, 10, 10, 100⟩ 1 10 10 100 =
      [⟨⟨0, 1⟩, ⟨0, 10⟩, ⟨0, 10⟩, ⟨0, 100⟩⟩,
        ⟨⟨1, 2⟩, ⟨0, 10⟩, ⟨0, 10⟩, ⟨0, 100⟩⟩,
        ⟨⟨2, 3⟩, ⟨0, 10⟩, ⟨0, 10⟩, ⟨0, 100⟩⟩,
        ⟨⟨3, 4⟩, ⟨0, 10⟩, ⟨0, 10⟩, ⟨0, 100⟩⟩,
        ⟨⟨4, 5⟩, ⟨0, 10⟩, ⟨0, 10⟩, ⟨0, 100⟩⟩] := by decide
  rw [h]

theorem C9_witness :
    chunk_image_dimensions_checked 2 9 8 =
      some (chunk_image_dimensions 2 9 8) ∧
    (2 < ceil_sqrt 8 →
      1 ≤ Int.toNat (Int.floor (((9 : ℕ) : ℚ) / (((8 : ℕ) : ℚ) / ((2 : ℕ) : ℚ))))) ∧
    (¬ 2 < ceil_sqrt 8 → 9 < ceil_sqrt 8 →
      1 ≤ Int.toNat (Int.floor (((2 : ℕ) : ℚ) / (((8 : ℕ) : ℚ) / ((9 : ℕ) : ℚ))))) :=
  C9_asserts_never_fail 2 9 8 (by norm_num) (by norm_num) (by norm_num)
    (by norm_num)

end Chunking
